import Mathlib

/-
Shallow embedding of es-node's `ethstorage/storage_manager.go` (StorageManager).

Bytes are modelled as `Nat` values (< 256 in well-formed data), byte arrays as
`List Nat`.  A Go `common.Hash` / `[32]byte` is a 32-element list.  Errors are
an inductive type; Go's sentinel `errCommitMismatch` (compared with `!=` in
`CommitEmptyBlobs`) is the dedicated constructor `commitMismatch`.

The external ShardManager / shard store and the L1 source are out of scope of
the repository source under verification (the spec treats them as external
collaborators specified at their interface boundary), so they are modelled
from the spec as an abstract slot store with fault-injection fields.

Goroutine fan-out over disjoint index partitions is modelled by running the
workers sequentially in task order (worker partitions are disjoint, so this is
a faithful linearization); the result channel drain is modelled by taking the
first error in task order.
-/

/-- Error values returned by StorageManager operations.  `commitMismatch`
models the sentinel `errCommitMismatch`; the others model the distinct
`errors.New` messages. -/
inductive SMErr where
  | invalidParamsLens
  | staleL1
  | l1SourceError
  | writeFailed
  | encodeFailed
  | metaReadFailed
  | kvIdxMismatch
  | commitMismatch
  | syncingOrEmpty
  | readFailed
deriving DecidableEq

/-- HashSizeInContract in the Go source. -/
def HashSizeInContract : Nat := 24

/-- blobFillingMask in the Go source: byte 0b10000000. -/
def blobFillingMask : Nat := 128

/-- MetaBatchSize in the Go source. -/
def MetaBatchSize : Nat := 8000

/-- MetaDownloadThread in the Go source. -/
def MetaDownloadThread : Nat := 32

/-- Go's `copy(dst, src)` into a zeroed n-byte array: take at most n bytes of
the source and pad with zero bytes up to length n. -/
def padTo (n : Nat) (l : List Nat) : List Nat :=
  (l ++ List.replicate n 0).take n

/-- The zero 32-byte record (`common.Hash{}` / a missing Go map entry). -/
def zero32 : List Nat := List.replicate 32 0

/-- prepareCommit: keep the first 24 commitment bytes, set the blob-filling
bit (bit 7 of byte 24), zero the rest.  Mirrors lines 139-148 of the source. -/
def prepareCommit (commit : List Nat) : List Nat :=
  padTo HashSizeInContract commit ++ blobFillingMask :: List.replicate 7 0

/-- Big-endian 5-byte encoding of an index, as `big.Int.FillBytes(meta[0:5])`
produces for indices below 2^40. -/
def bigEndian5 (n : Nat) : List Nat :=
  [n / 2 ^ 32 % 256, n / 2 ^ 24 % 256, n / 2 ^ 16 % 256, n / 2 ^ 8 % 256, n % 256]

/-- Big-endian value of a byte list, as `big.Int.SetBytes(...).Uint64()`. -/
def beVal (l : List Nat) : Nat :=
  l.foldl (fun a b => a * 256 + b) 0

/-- The 32-byte cache record synthesized by `updateLocalMetas` (lines 456-461):
bytes [0,5) hold the big-endian index, bytes [8,32) the first 24 commitment
bytes. -/
def metaOfIdxCommit (idx : Nat) (commit : List Nat) : List Nat :=
  bigEndian5 idx ++ [0, 0, 0] ++ padTo HashSizeInContract commit

/-- Modelled from the spec: the external ShardStore (ShardManager), exposing
per-slot physical metadata and stored encoded bytes, a deterministic opaque
encode function, and fault-injection fields deciding which try-operations
fail or report not-ok. -/
structure ShardStore where
  meta : Nat → List Nat
  data : Nat → List Nat
  enc : Nat → List Nat → List Nat → List Nat
  encodeFail : Nat → List Nat → List Nat → Bool
  writeFail : Nat → Bool
  outOfShard : Nat → Bool
  metaReadFail : Nat → Bool
  dataReadFail : Nat → Bool

/-- Modelled from the spec: `ShardManager.TryEncodeKV(slot, rawBlob,
commitment) -> (encodedBlob, ok, err)`; the caller treats not-ok and error
alike, so both collapse into `none`. -/
def tryEncodeKV (st : ShardStore) (kvIdx : Nat) (blob commit : List Nat) :
    Option (List Nat) :=
  if st.encodeFail kvIdx blob commit then none
  else some (st.enc kvIdx blob commit)

/-- Modelled from the spec: `ShardManager.TryWrite(slot, rawBlob, commitment)
-> (ok, err)`: encode-and-write; on success the slot's physical metadata
becomes the supplied (prepared) commitment.  A slot outside the managed shards
reports not-ok without an error (the caller ignores that case). -/
def tryWrite (st : ShardStore) (kvIdx : Nat) (blob c : List Nat) :
    ShardStore × Bool × Option SMErr :=
  if st.writeFail kvIdx then (st, false, some .writeFailed)
  else if st.outOfShard kvIdx then (st, false, none)
  else
    ({ st with
        meta := fun j => if j = kvIdx then c else st.meta j,
        data := fun j => if j = kvIdx then st.enc kvIdx blob c else st.data j },
      true, none)

/-- Modelled from the spec: `ShardManager.TryWriteEncoded(slot, encodedBlob,
commitment) -> (ok, err)`; not-ok and error collapse into `none` (the caller
treats them alike).  On success the slot's physical metadata becomes the
supplied (prepared) commitment and the encoded bytes are stored. -/
def tryWriteEncoded (st : ShardStore) (kvIdx : Nat) (encodedBlob c : List Nat) :
    Option ShardStore :=
  if st.writeFail kvIdx ∨ st.outOfShard kvIdx then none
  else
    some { st with
      meta := fun j => if j = kvIdx then c else st.meta j,
      data := fun j => if j = kvIdx then encodedBlob else st.data j }

/-- Modelled from the spec: `ShardManager.TryReadMeta(slot) -> (bytes, ok,
err)`; not-ok and error collapse into `none`. -/
def tryReadMeta (st : ShardStore) (kvIdx : Nat) : Option (List Nat) :=
  if st.metaReadFail kvIdx then none else some (st.meta kvIdx)

/-- Modelled from the spec: `ShardManager.TryReadEncoded(slot, length) ->
(bytes, ok, err)`: returns the stored encoded bytes truncated to the
requested length, or a read error. -/
def tryReadEncodedStore (st : ShardStore) (kvIdx readLen : Nat) :
    Option (List Nat) × Option SMErr :=
  if st.dataReadFail kvIdx then (none, some .readFailed)
  else (some ((st.data kvIdx).take readLen), none)

/-- StorageManager state: local L1 view, last assigned kv index, the blobMetas
cache (association list, most recent binding first, mirroring Go map
overwrite), the shard store, the L1 source's `GetStorageLastBlobIdx` (modelled
from the spec as a function that may fail), and DownloadThreadNum. -/
structure SMState where
  localL1 : Int
  lastKvIdx : Nat
  blobMetas : List (Nat × List Nat)
  store : ShardStore
  l1LastBlobIdx : Int → Option Nat
  downloadThreadNum : Nat

/-- Go map lookup `s.blobMetas[i]`: the stored record, or the zero record for
a missing key. -/
def getMeta (m : List (Nat × List Nat)) (k : Nat) : List Nat :=
  match m.find? (fun p => p.1 == k) with
  | some p => p.2
  | none => zero32

/-- getKvMetas (lines 465-474): look up the cached 32-byte record of every
requested index, in order. -/
def getKvMetas (s : SMState) (kvIndices : List Nat) : List (List Nat) :=
  kvIndices.map (getMeta s.blobMetas)

/-- commitEncodedBlob (lines 269-301): reject if the cached record's bytes
[8,32) differ from the first 24 commitment bytes; read the physical metadata;
reject if the cached record's bytes [0,5) do not encode the target index;
succeed without writing if the physical metadata already carries the same
24-byte commitment with the filling bit set; otherwise write the encoded blob
with the prepared commitment. -/
def commitEncodedBlob (st : ShardStore) (kvIndex : Nat)
    (encodedBlob commit contractMeta : List Nat) : ShardStore × Option SMErr :=
  if ¬ ((contractMeta.drop (32 - HashSizeInContract)).take HashSizeInContract
        = commit.take HashSizeInContract) then
    (st, some .commitMismatch)
  else
    match tryReadMeta st kvIndex with
    | none => (st, some .metaReadFailed)
    | some m =>
      if ¬ (beVal (contractMeta.take 5) = kvIndex) then
        (st, some .kvIdxMismatch)
      else
        let localMeta := padTo 32 m
        if localMeta.take HashSizeInContract = commit.take HashSizeInContract
            ∧ localMeta.getD HashSizeInContract 0 &&& blobFillingMask ≠ 0 then
          (st, none)
        else
          match tryWriteEncoded st kvIndex encodedBlob (prepareCommit commit) with
          | none => (st, some .writeFailed)
          | some st' => (st', none)

/-- CommitBlob (lines 250-267): encode, fetch the cached record, apply the
per-slot commit rule. -/
def CommitBlob (s : SMState) (kvIndex : Nat) (blob commit : List Nat) :
    SMState × Option SMErr :=
  match tryEncodeKV s.store kvIndex blob commit with
  | none => (s, some .encodeFailed)
  | some encodedBlob =>
    let metas := getKvMetas s [kvIndex]
    if ¬ (metas.length = 1) then (s, some .invalidParamsLens)
    else
      let r := commitEncodedBlob s.store kvIndex encodedBlob commit (metas.getD 0 zero32)
      ({ s with store := r.1 }, r.2)

/-- Commit loop of CommitBlobs (lines 192-203): each item is (index,
encodedBlob, commitment, cached record); per-slot failures are skipped,
successes append the index to the inserted list. -/
def commitBlobsLoop (st : ShardStore)
    (items : List (Nat × List Nat × List Nat × List Nat)) (acc : List Nat) :
    ShardStore × List Nat :=
  match items with
  | [] => (st, acc)
  | (idx, eb, commit, cm) :: rest =>
    match commitEncodedBlob st idx eb commit cm with
    | (st', none) => commitBlobsLoop st' rest (acc ++ [idx])
    | (st', some _) => commitBlobsLoop st' rest acc

/-- CommitBlobs (lines 168-205): length check, independent encoding (encode
failures are skipped), one cache read for all indices, then the commit loop;
the top-level error is nil except for the length check. -/
def CommitBlobs (s : SMState) (kvIndices : List Nat)
    (blobs commits : List (List Nat)) : SMState × List Nat × Option SMErr :=
  if ¬ (kvIndices.length = blobs.length ∧ blobs.length = commits.length) then
    (s, [], some .invalidParamsLens)
  else
    let items := (List.range kvIndices.length).filterMap fun i =>
      match tryEncodeKV s.store (kvIndices.getD i 0) (blobs.getD i []) (commits.getD i []) with
      | none => none
      | some eb =>
        some (kvIndices.getD i 0, eb, commits.getD i [],
          getMeta s.blobMetas (kvIndices.getD i 0))
    let r := commitBlobsLoop s.store items []
    ({ s with store := r.1 }, r.2, none)

/-- Encode loop of CommitEmptyBlobs (lines 218-226), fuel-structured: encode
the empty blob for each index i with start <= i <= limit in order, stopping
at the first encode failure; yields the (index, encodedBlob) pairs.  The fuel
is `limit + 1 - i` at the top call, enough for every iteration. -/
def encodeEmptyLoopAux (st : ShardStore) : Nat → Nat → Nat → List (Nat × List Nat)
  | 0, _, _ => []
  | fuel + 1, i, limit =>
    if i ≤ limit then
      match tryEncodeKV st i [] zero32 with
      | none => []
      | some eb => (i, eb) :: encodeEmptyLoopAux st fuel (i + 1) limit
    else []

/-- Encode loop of CommitEmptyBlobs with its fuel instantiated. -/
def encodeEmptyLoop (st : ShardStore) (start limit : Nat) : List (Nat × List Nat) :=
  encodeEmptyLoopAux st (limit + 1 - start) start limit

/-- Commit loop of CommitEmptyBlobs (lines 233-244): each item is ((index,
encodedBlob), cached record); success increments inserted and advances next;
a commit-mismatch only advances next; any other error stops the loop with
next unchanged. -/
def commitEmptyLoop (st : ShardStore)
    (items : List ((Nat × List Nat) × List Nat)) (inserted next : Nat) :
    ShardStore × Nat × Nat :=
  match items with
  | [] => (st, inserted, next)
  | ((idx, eb), cm) :: rest =>
    match commitEncodedBlob st idx eb zero32 cm with
    | (st', none) => commitEmptyLoop st' rest (inserted + 1) (next + 1)
    | (st', some e) =>
      if e = .commitMismatch then commitEmptyLoop st' rest inserted (next + 1)
      else (st', inserted, next)

/-- CommitEmptyBlobs (lines 209-246): encode empty blobs over [start, limit]
until the first encode failure, fetch the cached records, run the commit
loop; returns (state, inserted, next, error) where the error is always nil
as in the source. -/
def CommitEmptyBlobs (s : SMState) (start limit : Nat) :
    SMState × Nat × Nat × Option SMErr :=
  let pairs := encodeEmptyLoop s.store start limit
  let metas := getKvMetas s (pairs.map Prod.fst)
  let r := commitEmptyLoop s.store (pairs.zip metas) 0 start
  ({ s with store := r.1 }, r.2.1, r.2.2, none)

/-- The empty-filled marker metadata: all zero except the filling bit in the
byte at offset HashSizeInContract (h1 in syncCheck, lines 312-313). -/
def h1Meta : List Nat :=
  List.replicate HashSizeInContract 0 ++ blobFillingMask :: List.replicate 7 0

/-- syncCheck (lines 303-322): read the physical metadata; report the
syncing-or-just-empty error when it is all zero (unsynced) or equals the
empty-filled marker. -/
def syncCheck (st : ShardStore) (kvIdx : Nat) : Option SMErr :=
  match tryReadMeta st kvIdx with
  | none => some .metaReadFailed
  | some m =>
    let hash := padTo 32 m
    if hash = zero32 ∨ hash = h1Meta then some .syncingOrEmpty else none

/-- TryReadEncoded of StorageManager (lines 478-488): run syncCheck, then read
through to the shard store. -/
def TryReadEncoded (s : SMState) (kvIdx readLen : Nat) :
    Option (List Nat) × Option SMErr :=
  match syncCheck s.store kvIdx with
  | some e => (none, some e)
  | none => tryReadEncodedStore s.store kvIdx readLen

/-- Index partition of one DownloadFinished worker (lines 96-99), fuel-
structured: the indices k, k + step, k + 2 * step, ... strictly below m.  The
fuel bounds the iteration count; `m - k` at the top call is enough whenever
step >= 1. -/
def stepIndicesAux : Nat → Nat → Nat → Nat → List Nat
  | 0, _, _, _ => []
  | fuel + 1, k, step, m =>
    if k < m then k :: stepIndicesAux fuel (k + step) step m else []

/-- Index partition of DownloadFinished worker k out of `step` workers over m
input positions: k, k + step, k + 2 * step, ... below m. -/
def stepIndices (k step m : Nat) : List Nat :=
  stepIndicesAux m k step m

/-- Body of one DownloadFinished worker (lines 101-115): raw-write each
assigned position's triple through the shard store, stopping at the first
write error, which the worker reports. -/
def runTask (st : ShardStore) (idxs : List Nat) (kvIndices : List Nat)
    (blobs commits : List (List Nat)) : ShardStore × Option SMErr :=
  match idxs with
  | [] => (st, none)
  | i :: rest =>
    let c := prepareCommit (commits.getD i [])
    let r := tryWrite st (kvIndices.getD i 0) (blobs.getD i []) c
    match r.2.2 with
    | none => runTask r.1 rest kvIndices blobs commits
    | some e => (r.1, some e)

/-- Worker dispatch loop of DownloadFinished (lines 88-118), fuel-structured
(fuel = taskNum at the top call): spawn worker taskIdx while taskIdx < taskNum
and taskIdx < number of input positions; workers run in task order and their
reported errors are collected in task order. -/
def runTasksAux (st : ShardStore) : Nat → Nat → Nat → List Nat →
    List (List Nat) → List (List Nat) → ShardStore × List (Option SMErr)
  | 0, _, _, _, _, _ => (st, [])
  | fuel + 1, taskIdx, taskNum, kvIndices, blobs, commits =>
    if taskIdx < taskNum ∧ taskIdx < kvIndices.length then
      let r := runTask st (stepIndices taskIdx taskNum kvIndices.length)
        kvIndices blobs commits
      let rs := runTasksAux r.1 fuel (taskIdx + 1) taskNum kvIndices blobs commits
      (rs.1, r.2 :: rs.2)
    else (st, [])

/-- First non-nil error among the drained worker results (lines 122-128). -/
def firstErr : List (Option SMErr) → Option SMErr
  | [] => none
  | none :: rest => firstErr rest
  | some e :: _ => some e

/-- updateLocalMetas (lines 452-463): synthesize and install a cache record
for every written index from its supplied commitment; later bindings shadow
earlier ones as in a Go map. -/
def installMetas (m : List (Nat × List Nat))
    (pairs : List (Nat × List Nat)) : List (Nat × List Nat) :=
  pairs.foldl (fun acc p => (p.1, metaOfIdxCommit p.1 p.2) :: acc) m

/-- updateLocalMetas as a state transformer. -/
def updateLocalMetas (s : SMState) (kvIndices : List Nat)
    (commits : List (List Nat)) : SMState :=
  { s with blobMetas := installMetas s.blobMetas (kvIndices.zip commits) }

/-- DownloadFinished (lines 61-137): length check; stale-view check; fetch and
stage the new lastKvIdx; fan the triples out to the workers; on any worker
error return the first error (the staged lastKvIdx and the partial writes
remain); on full success adopt newL1 and synthesize the cache records. -/
def DownloadFinished (s : SMState) (newL1 : Int) (kvIndices : List Nat)
    (blobs commits : List (List Nat)) : SMState × Option SMErr :=
  if ¬ (kvIndices.length = blobs.length ∧ blobs.length = commits.length) then
    (s, some .invalidParamsLens)
  else if newL1 ≤ s.localL1 then (s, some .staleL1)
  else
    match s.l1LastBlobIdx newL1 with
    | none => (s, some .l1SourceError)
    | some lk =>
      match firstErr (runTasksAux s.store s.downloadThreadNum 0
          s.downloadThreadNum kvIndices blobs commits).2 with
      | some e =>
        ({ s with
            lastKvIdx := lk,
            store := (runTasksAux s.store s.downloadThreadNum 0
              s.downloadThreadNum kvIndices blobs commits).1 },
          some e)
      | none =>
        (updateLocalMetas
          { s with
              lastKvIdx := lk,
              store := (runTasksAux s.store s.downloadThreadNum 0
                s.downloadThreadNum kvIndices blobs commits).1,
              localL1 := newL1 }
          kvIndices commits, none)

/-- Download plan chosen by downloadMetaInParallel (lines 370-397): either one
sequential range pass, or the per-worker (rangeStart, rangeEnd) pairs exactly
as the source computes them. -/
inductive DownloadPlan where
  | sequentialRange (lo hi : Nat)
  | parallelRanges (ranges : List (Nat × Nat))
deriving DecidableEq

/-- downloadMetaInParallel's partition (lines 370-397): below the threshold a
single sequential pass over [lo, hi); otherwise worker taskIdx covers
[taskIdx * rangeSize, (taskIdx + 1) * rangeSize) with the last worker's end
replaced by hi, where rangeSize = (hi - lo) / MetaDownloadThread. -/
def downloadMetaPlan (lo hi : Nat) : DownloadPlan :=
  if hi - lo < MetaDownloadThread * MetaBatchSize then .sequentialRange lo hi
  else
    let rangeSize := (hi - lo) / MetaDownloadThread
    .parallelRanges ((List.range MetaDownloadThread).map fun taskIdx =>
      (taskIdx * rangeSize,
        if taskIdx = MetaDownloadThread - 1 then hi else (taskIdx + 1) * rangeSize))

/-- Whether a slot index is covered by a download plan. -/
def planCovers (p : DownloadPlan) (i : Nat) : Bool :=
  match p with
  | .sequentialRange lo hi => decide (lo ≤ i ∧ i < hi)
  | .parallelRanges rs => rs.any fun r => decide (r.1 ≤ i ∧ i < r.2)

/-- A padded byte array has exactly the requested length. -/
theorem padTo_length (n : Nat) (l : List Nat) : (padTo n l).length = n := by
  simp [padTo]

/-- Padding a list that already has the right length is the identity. -/
theorem padTo_eq_self (n : Nat) (l : List Nat) (h : l.length = n) : padTo n l = l := by
  unfold padTo
  rw [List.take_append_of_le_length (by omega), List.take_of_length_le (by omega)]

/-- Padding to a length the list already reaches is truncation. -/
theorem padTo_eq_take (n : Nat) (l : List Nat) (h : n ≤ l.length) :
    padTo n l = l.take n := by
  unfold padTo
  rw [List.take_append_of_le_length h]

/-- A prepared commitment is 32 bytes long. -/
theorem prepareCommit_length (c : List Nat) : (prepareCommit c).length = 32 := by
  simp [prepareCommit, padTo_length, HashSizeInContract]

/-- The first 24 bytes of a prepared commitment are the (padded) first 24
commitment bytes. -/
theorem prepareCommit_take (c : List Nat) :
    (prepareCommit c).take HashSizeInContract = padTo HashSizeInContract c := by
  unfold prepareCommit
  rw [List.take_append_of_le_length (by rw [padTo_length]),
    List.take_of_length_le (by rw [padTo_length])]

/-- Byte 24 of a prepared commitment is the filling mask. -/
theorem prepareCommit_getD (c : List Nat) :
    (prepareCommit c).getD HashSizeInContract 0 = blobFillingMask := by
  unfold prepareCommit
  rw [List.getD_append_right _ _ _ _ (by rw [padTo_length]), padTo_length]
  simp

/-- The fuelled worker partition contains exactly the indices congruent to its
start below the bound, provided the fuel covers the remaining distance. -/
theorem mem_stepIndicesAux (N : Nat) (hN : 0 < N) :
    ∀ (f k m i : Nat), m - k ≤ f →
      (i ∈ stepIndicesAux f k N m ↔ k ≤ i ∧ i < m ∧ i % N = k % N) := by
  intro f
  induction f with
  | zero =>
    intro k m i hf
    simp only [stepIndicesAux, List.not_mem_nil, false_iff]
    rintro ⟨h1, h2, _⟩
    omega
  | succ f ih =>
    intro k m i hf
    simp only [stepIndicesAux]
    split
    · next hkM =>
      rw [List.mem_cons, ih (k + N) m i (by omega)]
      constructor
      · rintro (rfl | ⟨h1, h2, h3⟩)
        · exact ⟨Nat.le_refl i, hkM, rfl⟩
        · exact ⟨by omega, h2, by rw [h3, Nat.add_mod_right]⟩
      · rintro ⟨h1, h2, h3⟩
        by_cases hik : i = k
        · exact Or.inl hik
        · right
          have hdvd : N ∣ i - k := (Nat.modEq_iff_dvd' h1).mp h3.symm
          obtain ⟨t, ht⟩ := hdvd
          have ht0 : 0 < t := by
            rcases Nat.eq_zero_or_pos t with h0 | h0
            · subst h0; simp at ht; omega
            · exact h0
          have hNt : N ≤ N * t := Nat.le_mul_of_pos_right N ht0
          have hsub : N ≤ i - k := by omega
          exact ⟨by omega, h2, by rw [h3, Nat.add_mod_right]⟩
    · next hkM =>
      simp only [List.not_mem_nil, false_iff]
      rintro ⟨h1, h2, _⟩
      omega

/-- C9: in DownloadFinished with M input triples and N = DownloadThreadNum >= 1
workers, min N M workers are spawned, worker (i % N) is among them, and a
spawned worker k's partition `stepIndices k N M` contains input position
i < M exactly when k = i % N: every position is assigned to exactly one
worker, namely the one matching its residue, so there is no duplication and
no omission. -/
theorem downloadFinished_partition_complete (N M i : Nat) (hN : 1 ≤ N) (hi : i < M) :
    i % N < min N M
    ∧ ∀ k, k < min N M → (i ∈ stepIndices k N M ↔ k = i % N) := by
  have hmod : i % N < N := Nat.mod_lt _ (by omega)
  have hle : i % N ≤ i := Nat.mod_le i N
  refine ⟨by omega, fun k hk => ?_⟩
  rw [stepIndices, mem_stepIndicesAux N (by omega) M k M i (by omega)]
  have hkN : k < N := by omega
  constructor
  · rintro ⟨h1, h2, h3⟩
    rw [h3, Nat.mod_eq_of_lt hkN]
  · rintro rfl
    exact ⟨hle, hi, by rw [Nat.mod_eq_of_lt hmod]⟩

/-- C9 witness: with 3 workers over 7 positions, position 5 is assigned to
worker 2 and only to worker 2. -/
theorem downloadFinished_partition_complete_witness :
    5 % 3 < min 3 7 ∧ ∀ k, k < min 3 7 → (5 ∈ stepIndices k 3 7 ↔ k = 5 % 3) :=
  downloadFinished_partition_complete 3 7 5 (by decide) (by decide)

/-- C6: downloadMetaInParallel's partition for the range [300000, 600000)
takes the parallel path (the range is above the fan-out threshold) and its
first worker's sub-range covers slot 0, which lies outside [300000, 600000)
and is not covered by the sequential pass over the same range: the per-worker
sub-ranges start at taskIdx * rangeSize instead of lo + taskIdx * rangeSize,
so their union is [0, 600000), not [lo, hi). -/
theorem downloadMetaInParallel_range_bug :
    downloadMetaPlan 300000 600000
      ≠ DownloadPlan.sequentialRange 300000 600000
    ∧ planCovers (downloadMetaPlan 300000 600000) 0 = true
    ∧ planCovers (DownloadPlan.sequentialRange 300000 600000) 0 = false := by
  decide

/-- A fault-free example shard store whose physical metadata is all zero and
whose encode function is the identity on the blob. -/
def exStore : ShardStore :=
  ⟨fun _ => zero32, fun _ => [], fun _ b _ => b, fun _ _ _ => false,
    fun _ => false, fun _ => false, fun _ => false, fun _ => false⟩

/-- An example manager state over `exStore` with an empty cache. -/
def exSM : SMState := ⟨5, 10, [], exStore, fun _ => some 99, 2⟩

/-- An example commitment: 32 bytes of value 9. -/
def exCommit9 : List Nat := List.replicate 32 9

/-- C3: a DownloadFinished call whose newL1 is not strictly newer than the
local view fails immediately with an unchanged state, and no DownloadFinished
call ever decreases localL1, so the local ledger view only moves forward. -/
theorem downloadFinished_stale_rejected (s : SMState) (newL1 : Int)
    (kvIndices : List Nat) (blobs commits : List (List Nat)) :
    (newL1 ≤ s.localL1 →
      (DownloadFinished s newL1 kvIndices blobs commits).1 = s
      ∧ (DownloadFinished s newL1 kvIndices blobs commits).2 ≠ none)
    ∧ s.localL1 ≤ (DownloadFinished s newL1 kvIndices blobs commits).1.localL1 := by
  constructor
  · intro h
    unfold DownloadFinished
    split
    · exact ⟨rfl, by simp⟩
    · exact ⟨rfl, by simp⟩
  · unfold DownloadFinished
    split
    · exact le_refl _
    · split
      · exact le_refl _
      · next hB =>
        split
        · exact le_refl _
        · split
          · exact le_refl _
          · show s.localL1 ≤ newL1
            omega

/-- C3 witness: with local view 5, a DownloadFinished call at newL1 = 3 is
rejected with the state unchanged and a non-nil error, and localL1 does not
decrease. -/
theorem downloadFinished_stale_rejected_witness :
    (DownloadFinished exSM 3 [] [] []).1 = exSM
    ∧ (DownloadFinished exSM 3 [] [] []).2 ≠ none
    ∧ exSM.localL1 ≤ (DownloadFinished exSM 3 [] [] []).1.localL1 :=
  ⟨((downloadFinished_stale_rejected exSM 3 [] [] []).1 (by decide)).1,
    ((downloadFinished_stale_rejected exSM 3 [] [] []).1 (by decide)).2,
    (downloadFinished_stale_rejected exSM 3 [] [] []).2⟩

/-- The first check of the per-slot rule: a cached record whose bytes [8,32)
differ from the proposed commitment's first 24 bytes is rejected with the
mismatch sentinel before anything is read or written, whatever the store
state. -/
theorem commitEncodedBlob_mismatch (st : ShardStore) (kvIndex : Nat)
    (eb commit cm : List Nat)
    (h : ¬ ((cm.drop (32 - HashSizeInContract)).take HashSizeInContract
        = commit.take HashSizeInContract)) :
    commitEncodedBlob st kvIndex eb commit cm = (st, some .commitMismatch) := by
  unfold commitEncodedBlob
  rw [if_pos h]

/-- Every index in the inserted list produced by the CommitBlobs loop either
was already accumulated or comes from an item whose cached record agreed with
its commitment on the 24-byte comparison. -/
theorem mem_commitBlobsLoop (v : Nat) :
    ∀ (items : List (Nat × List Nat × List Nat × List Nat)) (st : ShardStore)
      (acc : List Nat),
      v ∈ (commitBlobsLoop st items acc).2 →
      v ∈ acc ∨ ∃ it ∈ items, it.1 = v ∧
        ((it.2.2.2.drop (32 - HashSizeInContract)).take HashSizeInContract
          = it.2.2.1.take HashSizeInContract) := by
  intro items
  induction items with
  | nil => intro st acc hv; exact Or.inl hv
  | cons it rest ih =>
    intro st acc hv
    obtain ⟨idx, eb, commit, cm⟩ := it
    by_cases hm : (cm.drop (32 - HashSizeInContract)).take HashSizeInContract
        = commit.take HashSizeInContract
    · rcases hres : commitEncodedBlob st idx eb commit cm with ⟨st', e⟩
      cases e with
      | none =>
        simp only [commitBlobsLoop, hres] at hv
        rcases ih st' (acc ++ [idx]) hv with h | ⟨jt, hjt, h1, h2⟩
        · rcases List.mem_append.mp h with h | h
          · exact Or.inl h
          · refine Or.inr ⟨(idx, eb, commit, cm), List.mem_cons_self _ _, ?_, hm⟩
            simpa using (List.mem_singleton.mp h).symm
        · exact Or.inr ⟨jt, List.mem_cons_of_mem _ hjt, h1, h2⟩
      | some err =>
        simp only [commitBlobsLoop, hres] at hv
        rcases ih st' acc hv with h | ⟨jt, hjt, h1, h2⟩
        · exact Or.inl h
        · exact Or.inr ⟨jt, List.mem_cons_of_mem _ hjt, h1, h2⟩
    · have hres := commitEncodedBlob_mismatch st idx eb commit cm hm
      simp only [commitBlobsLoop, hres] at hv
      rcases ih st acc hv with h | ⟨jt, hjt, h1, h2⟩
      · exact Or.inl h
      · exact Or.inr ⟨jt, List.mem_cons_of_mem _ hjt, h1, h2⟩

/-- C2: a cached record whose commitment part (bytes [8,32)) differs from the
proposed commitment's first 24 bytes makes the per-slot rule fail with the
mismatch error and no physical write; CommitBlob propagates that error with
an unchanged state; and CommitBlobs leaves any slot out of the inserted list
when every batch position carrying that slot is mismatched against the
cache. -/
theorem commit_mismatch_rejected (st : ShardStore) (s : SMState) (kvIndex : Nat)
    (eb blob commit cm : List Nat)
    (kvIndices : List Nat) (blobs commits : List (List Nat)) (v : Nat) :
    (¬ ((cm.drop (32 - HashSizeInContract)).take HashSizeInContract
        = commit.take HashSizeInContract) →
      commitEncodedBlob st kvIndex eb commit cm = (st, some .commitMismatch))
    ∧ (tryEncodeKV s.store kvIndex blob commit = some eb →
      ¬ (((getMeta s.blobMetas kvIndex).drop (32 - HashSizeInContract)).take
            HashSizeInContract = commit.take HashSizeInContract) →
      CommitBlob s kvIndex blob commit = (s, some .commitMismatch))
    ∧ ((∀ j, j < kvIndices.length → kvIndices.getD j 0 = v →
        ¬ (((getMeta s.blobMetas v).drop (32 - HashSizeInContract)).take
              HashSizeInContract = (commits.getD j []).take HashSizeInContract)) →
      v ∉ (CommitBlobs s kvIndices blobs commits).2.1) := by
  refine ⟨commitEncodedBlob_mismatch st kvIndex eb commit cm, ?_, ?_⟩
  · intro henc hm
    have hrule := commitEncodedBlob_mismatch s.store kvIndex eb commit
      (getMeta s.blobMetas kvIndex) hm
    unfold CommitBlob
    rw [henc]
    show ({ s with store := (commitEncodedBlob s.store kvIndex eb commit
        (getMeta s.blobMetas kvIndex)).1 },
      (commitEncodedBlob s.store kvIndex eb commit
        (getMeta s.blobMetas kvIndex)).2) = (s, some SMErr.commitMismatch)
    rw [hrule]
  · intro hall hv
    unfold CommitBlobs at hv
    split at hv
    · exact List.not_mem_nil v hv
    · have hv' : v ∈ (commitBlobsLoop s.store
          ((List.range kvIndices.length).filterMap fun i =>
            match tryEncodeKV s.store (kvIndices.getD i 0) (blobs.getD i [])
                (commits.getD i []) with
            | none => none
            | some eb =>
              some (kvIndices.getD i 0, eb, commits.getD i [],
                getMeta s.blobMetas (kvIndices.getD i 0))) []).2 := hv
      rcases mem_commitBlobsLoop v _ s.store [] hv' with h | ⟨jt, hjt, h1, h2⟩
      · exact List.not_mem_nil v h
      · rw [List.mem_filterMap] at hjt
        obtain ⟨j, hj, hf⟩ := hjt
        rw [List.mem_range] at hj
        rcases htry : tryEncodeKV s.store (kvIndices.getD j 0) (blobs.getD j [])
            (commits.getD j []) with _ | eb'
        · rw [htry] at hf
          exact Option.noConfusion hf
        · rw [htry] at hf
          have hjt2 : (kvIndices.getD j 0, eb', commits.getD j [],
              getMeta s.blobMetas (kvIndices.getD j 0)) = jt :=
            Option.some.inj hf
          subst hjt2
          have hidx : kvIndices.getD j 0 = v := h1
          rw [hidx] at h2
          exact hall j hj hidx h2

/-- C2 witness: against an empty cache (expected record zero) a commitment of
9-bytes mismatches: the single-slot commit fails with the mismatch error and
the batch commit leaves the slot out of the inserted list. -/
theorem commit_mismatch_rejected_witness :
    CommitBlob exSM 1 [7] exCommit9 = (exSM, some SMErr.commitMismatch)
    ∧ 1 ∉ (CommitBlobs exSM [1] [[7]] [exCommit9]).2.1 :=
  ⟨(commit_mismatch_rejected exStore exSM 1 [7] [7] exCommit9 zero32
      [1] [[7]] [exCommit9] 1).2.1 (by decide) (by decide),
    (commit_mismatch_rejected exStore exSM 1 [7] [7] exCommit9 zero32
      [1] [[7]] [exCommit9] 1).2.2 (by decide)⟩

/-- C7: provided the physical metadata read succeeds, TryReadEncoded fails
with the syncing-or-just-empty error exactly when the slot's 32-byte physical
metadata is all zero (unsynced) or zero except for the filling bit
(empty filled); in every other case it reads through to the shard store and
returns its answer. -/
theorem tryReadEncoded_classification (s : SMState) (kvIdx readLen : Nat)
    (h : s.store.metaReadFail kvIdx = false) :
    (TryReadEncoded s kvIdx readLen = (none, some .syncingOrEmpty)
      ↔ (padTo 32 (s.store.meta kvIdx) = zero32
          ∨ padTo 32 (s.store.meta kvIdx) = h1Meta))
    ∧ (¬ (padTo 32 (s.store.meta kvIdx) = zero32
          ∨ padTo 32 (s.store.meta kvIdx) = h1Meta) →
      TryReadEncoded s kvIdx readLen = tryReadEncodedStore s.store kvIdx readLen) := by
  have hread : tryReadMeta s.store kvIdx = some (s.store.meta kvIdx) := by
    unfold tryReadMeta
    rw [h]
    simp
  by_cases hc : padTo 32 (s.store.meta kvIdx) = zero32
      ∨ padTo 32 (s.store.meta kvIdx) = h1Meta
  · have hsync : syncCheck s.store kvIdx = some .syncingOrEmpty := by
      unfold syncCheck
      rw [hread]
      show (if padTo 32 (s.store.meta kvIdx) = zero32
          ∨ padTo 32 (s.store.meta kvIdx) = h1Meta
        then some SMErr.syncingOrEmpty else none) = some SMErr.syncingOrEmpty
      rw [if_pos hc]
    refine ⟨⟨fun _ => hc, fun _ => ?_⟩, fun hnc => absurd hc hnc⟩
    unfold TryReadEncoded
    rw [hsync]
  · have hsync : syncCheck s.store kvIdx = none := by
      unfold syncCheck
      rw [hread]
      show (if padTo 32 (s.store.meta kvIdx) = zero32
          ∨ padTo 32 (s.store.meta kvIdx) = h1Meta
        then some SMErr.syncingOrEmpty else none) = none
      rw [if_neg hc]
    have hthrough : TryReadEncoded s kvIdx readLen
        = tryReadEncodedStore s.store kvIdx readLen := by
      unfold TryReadEncoded
      rw [hsync]
    refine ⟨⟨fun heq => ?_, fun hcc => absurd hcc hc⟩, fun _ => hthrough⟩
    exfalso
    rw [hthrough] at heq
    unfold tryReadEncodedStore at heq
    split at heq <;> simp at heq

/-- C7 witness: over the all-zero store the slot is unsynced, so the read
fails with the syncing-or-just-empty error. -/
theorem tryReadEncoded_classification_witness :
    TryReadEncoded exSM 0 4 = (none, some SMErr.syncingOrEmpty) :=
  (tryReadEncoded_classification exSM 0 4 (by decide)).1.mpr (by decide)

/-- Shared helper: with a passing 24-byte comparison and a successful
metadata read, the per-slot rule rejects with the index-mismatch error (and
writes nothing) whenever the CACHED record's bytes [0,5) do not encode the
target index. -/
theorem commitEncodedBlob_idx_reject (st : ShardStore) (kvIndex : Nat)
    (eb commit cm : List Nat)
    (hpre : (cm.drop (32 - HashSizeInContract)).take HashSizeInContract
        = commit.take HashSizeInContract)
    (hread : st.metaReadFail kvIndex = false)
    (hidx : ¬ (beVal (cm.take 5) = kvIndex)) :
    commitEncodedBlob st kvIndex eb commit cm = (st, some .kvIdxMismatch) := by
  have hrm : tryReadMeta st kvIndex = some (st.meta kvIndex) := by
    unfold tryReadMeta
    rw [hread]
    simp
  unfold commitEncodedBlob
  rw [if_neg (not_not_intro hpre)]
  simp only [hrm]
  rw [if_pos hidx]

/-- An example store whose physical metadata embeds slot index 7 at every
slot, with commitment bytes of value 5 and the filling bit clear. -/
def exStoreC8 : ShardStore :=
  ⟨fun _ => [0, 0, 0, 0, 7, 0, 0, 0] ++ List.replicate 24 5, fun _ => [],
    fun _ b _ => b, fun _ _ _ => false, fun _ => false, fun _ => false,
    fun _ => false, fun _ => false⟩

/-- C8 counterexample: the physical metadata of slot 1 embeds index 7, yet the
per-slot rule succeeds (and writes) with target index 1 because the guard
compares the CACHED record's bytes [0,5), not the physical metadata's: the
claim's "physical slot metadata" is refuted at this input. -/
theorem commitEncodedBlob_ignores_physical_index :
    beVal ((exStoreC8.meta 1).take 5) = 7
    ∧ (7 : Nat) ≠ 1
    ∧ (commitEncodedBlob exStoreC8 1 [7] exCommit9 (metaOfIdxCommit 1 exCommit9)).2
        = none := by
  decide

/-- C8 amended: after the 24-byte comparison passes and the physical metadata
read succeeds, the commit fails with the index-mismatch error (and performs
no write) whenever the slot index embedded in bytes [0,5) of the CACHED
MetaCache record disagrees with the target slot index. -/
theorem commitEncodedBlob_cached_idx_guard (st : ShardStore) (kvIndex : Nat)
    (eb commit cm : List Nat)
    (hpre : (cm.drop (32 - HashSizeInContract)).take HashSizeInContract
        = commit.take HashSizeInContract)
    (hread : st.metaReadFail kvIndex = false)
    (hidx : ¬ (beVal (cm.take 5) = kvIndex)) :
    commitEncodedBlob st kvIndex eb commit cm = (st, some .kvIdxMismatch) :=
  commitEncodedBlob_idx_reject st kvIndex eb commit cm hpre hread hidx

/-- C8 witness: a cached record embedding index 3 rejects a commit targeted
at slot 1. -/
theorem commitEncodedBlob_cached_idx_guard_witness :
    commitEncodedBlob exStore 1 [7] exCommit9 (metaOfIdxCommit 3 exCommit9)
      = (exStore, some SMErr.kvIdxMismatch) :=
  commitEncodedBlob_cached_idx_guard exStore 1 [7] exCommit9
    (metaOfIdxCommit 3 exCommit9) (by decide) (by decide) (by decide)

/-- The commitment part (bytes [8,32)) of the zero record is 24 zero bytes. -/
theorem zero32_commit_part :
    (zero32.drop (32 - HashSizeInContract)).take HashSizeInContract
      = List.replicate HashSizeInContract 0 := by
  decide

/-- The index part (bytes [0,5)) of the zero record encodes index 0. -/
theorem zero32_idx_part : beVal (zero32.take 5) = 0 := by
  decide

/-- C10: for a slot never installed in the cache, getKvMetas falls back to the
all-zero record, and CommitBlob therefore fails without touching the store:
with the commit-mismatch error when the commitment's first 24 bytes are not
all zero, and otherwise (nonzero target index, successful physical metadata
read) with the index-mismatch error, because the zero record embeds index 0. -/
theorem commitBlob_uninstalled_slot (s : SMState) (i : Nat)
    (blob commit : List Nat)
    (hnone : s.blobMetas.find? (fun p => p.1 == i) = none)
    (henc : s.store.encodeFail i blob commit = false) :
    getMeta s.blobMetas i = zero32
    ∧ (¬ (commit.take HashSizeInContract = List.replicate HashSizeInContract 0) →
      CommitBlob s i blob commit = (s, some .commitMismatch))
    ∧ (commit.take HashSizeInContract = List.replicate HashSizeInContract 0 →
      i ≠ 0 → s.store.metaReadFail i = false →
      CommitBlob s i blob commit = (s, some .kvIdxMismatch)) := by
  have hget : getMeta s.blobMetas i = zero32 := by
    unfold getMeta
    rw [hnone]
  have htry : tryEncodeKV s.store i blob commit = some (s.store.enc i blob commit) := by
    unfold tryEncodeKV
    rw [henc]
    simp
  refine ⟨hget, ?_, ?_⟩
  · intro hcm
    have hz : ¬ ((zero32.drop (32 - HashSizeInContract)).take HashSizeInContract
        = commit.take HashSizeInContract) := fun hk =>
      hcm (hk.symm.trans zero32_commit_part)
    have hrule := commitEncodedBlob_mismatch s.store i (s.store.enc i blob commit)
      commit (getMeta s.blobMetas i) (by rw [hget]; exact hz)
    unfold CommitBlob
    rw [htry]
    show ({ s with store := (commitEncodedBlob s.store i (s.store.enc i blob commit)
        commit (getMeta s.blobMetas i)).1 },
      (commitEncodedBlob s.store i (s.store.enc i blob commit) commit
        (getMeta s.blobMetas i)).2) = (s, some SMErr.commitMismatch)
    rw [hrule]
  · intro hcm hi hread
    have hrule : commitEncodedBlob s.store i (s.store.enc i blob commit) commit
        (getMeta s.blobMetas i) = (s.store, some .kvIdxMismatch) := by
      rw [hget]
      refine commitEncodedBlob_idx_reject s.store i _ commit zero32
        (zero32_commit_part.trans hcm.symm) hread ?_
      rw [zero32_idx_part]
      exact fun h0 => hi h0.symm
    unfold CommitBlob
    rw [htry]
    show ({ s with store := (commitEncodedBlob s.store i (s.store.enc i blob commit)
        commit (getMeta s.blobMetas i)).1 },
      (commitEncodedBlob s.store i (s.store.enc i blob commit) commit
        (getMeta s.blobMetas i)).2) = (s, some SMErr.kvIdxMismatch)
    rw [hrule]

/-- C10 witness: committing the zero commitment at uninstalled slot 2 fails
with the index-mismatch error. -/
theorem commitBlob_uninstalled_slot_witness :
    CommitBlob exSM 2 [7] zero32 = (exSM, some SMErr.kvIdxMismatch) :=
  (commitBlob_uninstalled_slot exSM 2 [7] zero32 (by decide) (by decide)).2.2
    (by decide) (by decide) (by decide)

/-- The indices produced by the empty-blob encode loop are consecutive from
its start. -/
theorem encodeEmptyLoopAux_map_fst (st : ShardStore) :
    ∀ (f i limit : Nat),
      (encodeEmptyLoopAux st f i limit).map Prod.fst
        = List.range' i (encodeEmptyLoopAux st f i limit).length := by
  intro f
  induction f with
  | zero => intro i limit; simp [encodeEmptyLoopAux]
  | succ f ih =>
    intro i limit
    simp only [encodeEmptyLoopAux]
    split
    · rcases htry : tryEncodeKV st i [] zero32 with _ | eb
      · simp only [htry, List.map_nil, List.length_nil, List.range']
      · simp only [htry, List.map_cons, List.length_cons, List.range'_succ]
        rw [ih (i + 1) limit]
    · simp

/-- An example store whose metadata reads always fail. -/
def exStoreMRF : ShardStore :=
  ⟨fun _ => zero32, fun _ => [], fun _ b _ => b, fun _ _ _ => false,
    fun _ => false, fun _ => false, fun _ => true, fun _ => false⟩

/-- C5: the CommitEmptyBlobs return contract.  The top-level error is always
nil; the per-slot rule is applied over the successfully encoded indices,
which are consecutive from start (so in increasing order); the loop on a
success counts the insert and advances the cursor; on a commit-mismatch it
does not abort, advancing the cursor past the index without counting it; and
on any other error it stops at once, leaving the cursor at the failing
index. -/
theorem commitEmptyBlobs_contract (s : SMState) (start limit : Nat)
    (st : ShardStore) (idx : Nat) (eb cm : List Nat)
    (rest : List ((Nat × List Nat) × List Nat)) (ins nxt : Nat) :
    (CommitEmptyBlobs s start limit).2.2.2 = none
    ∧ (encodeEmptyLoop s.store start limit).map Prod.fst
        = List.range' start (encodeEmptyLoop s.store start limit).length
    ∧ commitEmptyLoop st [] ins nxt = (st, ins, nxt)
    ∧ (∀ st', commitEncodedBlob st idx eb zero32 cm = (st', none) →
        commitEmptyLoop st (((idx, eb), cm) :: rest) ins nxt
          = commitEmptyLoop st' rest (ins + 1) (nxt + 1))
    ∧ (∀ st', commitEncodedBlob st idx eb zero32 cm = (st', some .commitMismatch) →
        commitEmptyLoop st (((idx, eb), cm) :: rest) ins nxt
          = commitEmptyLoop st' rest ins (nxt + 1))
    ∧ (∀ st' e, commitEncodedBlob st idx eb zero32 cm = (st', some e) →
        e ≠ .commitMismatch →
        commitEmptyLoop st (((idx, eb), cm) :: rest) ins nxt = (st', ins, nxt)) := by
  refine ⟨rfl, encodeEmptyLoopAux_map_fst s.store _ start limit, rfl, ?_, ?_, ?_⟩
  · intro st' h
    simp only [commitEmptyLoop, h]
  · intro st' h
    simp only [commitEmptyLoop, h]
    rw [if_pos trivial]
  · intro st' e h hne
    simp only [commitEmptyLoop, h]
    rw [if_neg hne]

/-- C5 witness: a metadata-read failure (a non-mismatch error) at the first
item stops the empty-fill loop at once with no insert counted and the cursor
left at the failing index. -/
theorem commitEmptyBlobs_contract_witness :
    commitEmptyLoop exStoreMRF [((3, []), zero32)] 0 5 = (exStoreMRF, 0, 5) :=
  (commitEmptyBlobs_contract exSM 0 0 exStoreMRF 3 [] zero32 [] 0 5).2.2.2.2.2
    exStoreMRF SMErr.metaReadFailed rfl (by decide)

/-- Shared helper: CommitBlob with a successful encode is the per-slot rule
applied to the encoded blob and the cached record, wrapped back into the
state. -/
theorem CommitBlob_eq (s : SMState) (kvIndex : Nat) (blob commit : List Nat)
    (henc : s.store.encodeFail kvIndex blob commit = false) :
    CommitBlob s kvIndex blob commit
      = ({ s with store := (commitEncodedBlob s.store kvIndex
            (s.store.enc kvIndex blob commit) commit
            (getMeta s.blobMetas kvIndex)).1 },
          (commitEncodedBlob s.store kvIndex (s.store.enc kvIndex blob commit)
            commit (getMeta s.blobMetas kvIndex)).2) := by
  have htry : tryEncodeKV s.store kvIndex blob commit
      = some (s.store.enc kvIndex blob commit) := by
    unfold tryEncodeKV
    rw [henc]
    simp
  unfold CommitBlob
  rw [htry]
  rfl

/-- Shared helper: the success-no-op branch of the per-slot rule: checks pass
and the physical metadata already carries the commitment with the filling bit
set, so nothing is written. -/
theorem commitEncodedBlob_noop (st : ShardStore) (kvIndex : Nat)
    (eb commit cm : List Nat)
    (hpre : (cm.drop (32 - HashSizeInContract)).take HashSizeInContract
        = commit.take HashSizeInContract)
    (hkix : beVal (cm.take 5) = kvIndex)
    (hread : st.metaReadFail kvIndex = false)
    (hfill : (padTo 32 (st.meta kvIndex)).take HashSizeInContract
        = commit.take HashSizeInContract
      ∧ (padTo 32 (st.meta kvIndex)).getD HashSizeInContract 0
          &&& blobFillingMask ≠ 0) :
    commitEncodedBlob st kvIndex eb commit cm = (st, none) := by
  have hrm : tryReadMeta st kvIndex = some (st.meta kvIndex) := by
    unfold tryReadMeta
    rw [hread]
    simp
  unfold commitEncodedBlob
  rw [if_neg (not_not_intro hpre)]
  simp only [hrm]
  rw [if_neg (not_not_intro hkix), if_pos hfill]

/-- Shared helper: the write branch of the per-slot rule: checks pass, the
slot is not yet filled with this commitment, the write succeeds, the physical
metadata becomes the prepared commitment. -/
theorem commitEncodedBlob_write (st : ShardStore) (kvIndex : Nat)
    (eb commit cm : List Nat)
    (hpre : (cm.drop (32 - HashSizeInContract)).take HashSizeInContract
        = commit.take HashSizeInContract)
    (hkix : beVal (cm.take 5) = kvIndex)
    (hread : st.metaReadFail kvIndex = false)
    (hnot : ¬ ((padTo 32 (st.meta kvIndex)).take HashSizeInContract
        = commit.take HashSizeInContract
      ∧ (padTo 32 (st.meta kvIndex)).getD HashSizeInContract 0
          &&& blobFillingMask ≠ 0))
    (hwrite : st.writeFail kvIndex = false)
    (hshard : st.outOfShard kvIndex = false) :
    commitEncodedBlob st kvIndex eb commit cm
      = ({ st with
            meta := fun j => if j = kvIndex then prepareCommit commit else st.meta j,
            data := fun j => if j = kvIndex then eb else st.data j }, none) := by
  have hrm : tryReadMeta st kvIndex = some (st.meta kvIndex) := by
    unfold tryReadMeta
    rw [hread]
    simp
  have hwe : tryWriteEncoded st kvIndex eb (prepareCommit commit)
      = some { st with
          meta := fun j => if j = kvIndex then prepareCommit commit else st.meta j,
          data := fun j => if j = kvIndex then eb else st.data j } := by
    unfold tryWriteEncoded
    rw [if_neg (by simp [hwrite, hshard])]
  unfold commitEncodedBlob
  rw [if_neg (not_not_intro hpre)]
  simp only [hrm]
  rw [if_neg (not_not_intro hkix), if_neg hnot]
  simp only [hwe]

/-- Shared helper: a CommitBlob against a slot whose physical metadata is
already the prepared commitment succeeds as a no-op. -/
theorem commitBlob_noop_of_filled (s : SMState) (kvIndex : Nat)
    (blob commit : List Nat)
    (hlen : commit.length = 32)
    (henc : s.store.encodeFail kvIndex blob commit = false)
    (hpre : ((getMeta s.blobMetas kvIndex).drop (32 - HashSizeInContract)).take
        HashSizeInContract = commit.take HashSizeInContract)
    (hkix : beVal ((getMeta s.blobMetas kvIndex).take 5) = kvIndex)
    (hread : s.store.metaReadFail kvIndex = false)
    (hmeta : s.store.meta kvIndex = prepareCommit commit) :
    CommitBlob s kvIndex blob commit = (s, none) := by
  have hfill : (padTo 32 (s.store.meta kvIndex)).take HashSizeInContract
      = commit.take HashSizeInContract
      ∧ (padTo 32 (s.store.meta kvIndex)).getD HashSizeInContract 0
          &&& blobFillingMask ≠ 0 := by
    rw [hmeta, padTo_eq_self 32 _ (prepareCommit_length commit),
      prepareCommit_take, prepareCommit_getD,
      padTo_eq_take _ _ (by rw [hlen]; decide)]
    exact ⟨rfl, by decide⟩
  have hcw := commitEncodedBlob_noop s.store kvIndex
    (s.store.enc kvIndex blob commit) commit (getMeta s.blobMetas kvIndex)
    hpre hkix hread hfill
  rw [CommitBlob_eq s kvIndex blob commit henc, hcw]

/-- C4: committing the same (slot, blob, commitment) twice in sequence from a
not-yet-filled slot: the first call succeeds and installs the prepared
commitment as the slot's physical metadata (commitment bytes with the filling
bit); the second call succeeds as a no-op, returning exactly the state after
the first call. -/
theorem commitBlob_idempotent (s : SMState) (kvIndex : Nat)
    (blob commit : List Nat)
    (hlen : commit.length = 32)
    (henc : s.store.encodeFail kvIndex blob commit = false)
    (hpre : ((getMeta s.blobMetas kvIndex).drop (32 - HashSizeInContract)).take
        HashSizeInContract = commit.take HashSizeInContract)
    (hkix : beVal ((getMeta s.blobMetas kvIndex).take 5) = kvIndex)
    (hread : s.store.metaReadFail kvIndex = false)
    (hwrite : s.store.writeFail kvIndex = false)
    (hshard : s.store.outOfShard kvIndex = false)
    (hnot : ¬ ((padTo 32 (s.store.meta kvIndex)).take HashSizeInContract
        = commit.take HashSizeInContract
      ∧ (padTo 32 (s.store.meta kvIndex)).getD HashSizeInContract 0
          &&& blobFillingMask ≠ 0)) :
    (CommitBlob s kvIndex blob commit).2 = none
    ∧ ((CommitBlob s kvIndex blob commit).1.store.meta kvIndex).take
        HashSizeInContract = commit.take HashSizeInContract
    ∧ ((CommitBlob s kvIndex blob commit).1.store.meta kvIndex).getD
        HashSizeInContract 0 &&& blobFillingMask ≠ 0
    ∧ CommitBlob (CommitBlob s kvIndex blob commit).1 kvIndex blob commit
        = ((CommitBlob s kvIndex blob commit).1, none) := by
  have hcw := commitEncodedBlob_write s.store kvIndex
    (s.store.enc kvIndex blob commit) commit (getMeta s.blobMetas kvIndex)
    hpre hkix hread hnot hwrite hshard
  have hs1 : CommitBlob s kvIndex blob commit
      = ({ s with store :=
            { s.store with
              meta := fun j => if j = kvIndex then prepareCommit commit
                else s.store.meta j,
              data := fun j => if j = kvIndex then s.store.enc kvIndex blob commit
                else s.store.data j } }, none) := by
    rw [CommitBlob_eq s kvIndex blob commit henc, hcw]
  rw [hs1]
  refine ⟨rfl, ?_, ?_, ?_⟩
  · show ((if kvIndex = kvIndex then prepareCommit commit
        else s.store.meta kvIndex).take HashSizeInContract)
      = commit.take HashSizeInContract
    rw [if_pos rfl, prepareCommit_take, padTo_eq_take _ _ (by rw [hlen]; decide)]
  · show ((if kvIndex = kvIndex then prepareCommit commit
        else s.store.meta kvIndex).getD HashSizeInContract 0)
      &&& blobFillingMask ≠ 0
    rw [if_pos rfl, prepareCommit_getD]
    decide
  · refine commitBlob_noop_of_filled _ kvIndex blob commit hlen henc hpre hkix
      hread ?_
    show (if kvIndex = kvIndex then prepareCommit commit
        else s.store.meta kvIndex) = prepareCommit commit
    rw [if_pos rfl]

/-- An example manager state whose cache holds the matching record for slot 1
over the all-zero (unfilled) store. -/
def exSMC4 : SMState :=
  ⟨5, 10, [(1, metaOfIdxCommit 1 exCommit9)], exStore, fun _ => some 99, 2⟩

/-- C4 witness: the same commit issued twice at slot 1 succeeds both times
and the second returns exactly the state produced by the first. -/
theorem commitBlob_idempotent_witness :
    (CommitBlob exSMC4 1 [7] exCommit9).2 = none
    ∧ CommitBlob (CommitBlob exSMC4 1 [7] exCommit9).1 1 [7] exCommit9
        = ((CommitBlob exSMC4 1 [7] exCommit9).1, none) :=
  ⟨(commitBlob_idempotent exSMC4 1 [7] exCommit9 (by decide) (by decide)
      (by decide) (by decide) (by decide) (by decide) (by decide) (by decide)).1,
    (commitBlob_idempotent exSMC4 1 [7] exCommit9 (by decide) (by decide)
      (by decide) (by decide) (by decide) (by decide) (by decide) (by decide)).2.2.2⟩

/-- An example store whose physical writes always fail. -/
def exStoreWF : ShardStore :=
  ⟨fun _ => zero32, fun _ => [], fun _ b _ => b, fun _ _ _ => false,
    fun _ => true, fun _ => false, fun _ => false, fun _ => false⟩

/-- An example manager state over the always-failing-write store, with local
view 0, lastKvIdx 10, one worker, and an L1 source reporting 99. -/
def exSMC1 : SMState := ⟨0, 10, [], exStoreWF, fun _ => some 99, 1⟩

/-- C1 counterexample: a DownloadFinished call whose only physical write fails
returns the worker error, yet the ledger view is NOT fully restored: localL1
stays at its old value but lastKvIdx has already been overwritten with the
newly fetched value 99 (it was 10 before the call), so part of the new view
is adopted. -/
theorem downloadFinished_adopts_lastKvIdx_on_failure :
    (DownloadFinished exSMC1 1 [0] [[7]] [exCommit9]).2 = some SMErr.writeFailed
    ∧ exSMC1.lastKvIdx = 10
    ∧ (DownloadFinished exSMC1 1 [0] [[7]] [exCommit9]).1.lastKvIdx = 99
    ∧ (DownloadFinished exSMC1 1 [0] [[7]] [exCommit9]).1.localL1
        = exSMC1.localL1 := by
  decide

/-- C1 amended: if any worker's physical write fails during DownloadFinished,
the call returns the first worker error in task order, and neither localL1
nor the MetaCache is touched; lastKvIdx, however, has already been staged to
the value fetched from the L1 source for newL1 and is not rolled back. -/
theorem downloadFinished_abort_keeps_localL1 (s : SMState) (newL1 : Int)
    (kvIndices : List Nat) (blobs commits : List (List Nat)) (lk : Nat)
    (e : SMErr)
    (hlen : kvIndices.length = blobs.length ∧ blobs.length = commits.length)
    (hnew : s.localL1 < newL1)
    (hsrc : s.l1LastBlobIdx newL1 = some lk)
    (herr : firstErr (runTasksAux s.store s.downloadThreadNum 0
        s.downloadThreadNum kvIndices blobs commits).2 = some e) :
    DownloadFinished s newL1 kvIndices blobs commits
      = ({ s with
            lastKvIdx := lk,
            store := (runTasksAux s.store s.downloadThreadNum 0
              s.downloadThreadNum kvIndices blobs commits).1 }, some e)
    ∧ (DownloadFinished s newL1 kvIndices blobs commits).1.localL1 = s.localL1
    ∧ (DownloadFinished s newL1 kvIndices blobs commits).1.blobMetas = s.blobMetas
    ∧ (DownloadFinished s newL1 kvIndices blobs commits).1.lastKvIdx = lk := by
  have hmain : DownloadFinished s newL1 kvIndices blobs commits
      = ({ s with
            lastKvIdx := lk,
            store := (runTasksAux s.store s.downloadThreadNum 0
              s.downloadThreadNum kvIndices blobs commits).1 }, some e) := by
    unfold DownloadFinished
    rw [if_neg (not_not_intro hlen),
      if_neg (show ¬ newL1 ≤ s.localL1 by omega)]
    simp only [hsrc, herr]
  exact ⟨hmain, by rw [hmain], by rw [hmain], by rw [hmain]⟩

/-- C1 amended witness: the concrete failing-write call returns the worker
error with localL1 unchanged and lastKvIdx staged to 99. -/
theorem downloadFinished_abort_keeps_localL1_witness :
    DownloadFinished exSMC1 1 [0] [[7]] [exCommit9]
      = ({ exSMC1 with
            lastKvIdx := 99,
            store := (runTasksAux exSMC1.store 1 0 1 [0] [[7]] [exCommit9]).1 },
          some SMErr.writeFailed)
    ∧ (DownloadFinished exSMC1 1 [0] [[7]] [exCommit9]).1.localL1
        = exSMC1.localL1 :=
  ⟨(downloadFinished_abort_keeps_localL1 exSMC1 1 [0] [[7]] [exCommit9] 99
      SMErr.writeFailed (by decide) (by decide) (by decide) (by decide)).1,
    (downloadFinished_abort_keeps_localL1 exSMC1 1 [0] [[7]] [exCommit9] 99
      SMErr.writeFailed (by decide) (by decide) (by decide) (by decide)).2.1⟩
